import Mathlib

/-!
Verification of the download/cache/task-coordination core of the
Steam Workshop Downloader repository.

The Python modules are shallowly embedded: Python strings are lists of
characters, Python dicts are association lists with distinct keys,
wall-clock time is an explicit integer parameter, and each method of
cache.py, download_manager.py, steam_api.py and worker.py relevant to
the claims becomes an executable Lean function that mirrors the source
line by line.
-/

/-- Python strings are modelled as lists of characters. -/
abbrev PyStr := List Char

namespace Py

/-- Worker for pyReplace, structurally recursive on a fuel argument.
The fuel is always instantiated with the length of the string, which
suffices because every step consumes at least one character when the
pattern is non-empty. -/
def replaceGo (pat rep : PyStr) : Nat → PyStr → PyStr
  | _, [] => []
  | 0, s => s
  | Nat.succ fuel, c :: rest =>
    if pat ≠ [] ∧ pat.isPrefixOf (c :: rest) then
      rep ++ replaceGo pat rep fuel ((c :: rest).drop pat.length)
    else
      c :: replaceGo pat rep fuel rest

/-- Python str.replace: replace every non-overlapping occurrence of pat
by rep, scanning left to right.  (The source only ever calls replace
with a non-empty pattern, so Python's special empty-pattern behaviour is
not modelled.) -/
def pyReplace (s pat rep : PyStr) : PyStr := replaceGo pat rep s.length s

/-- Python str.lower (the source only feeds it ASCII data). -/
def pyLower (s : PyStr) : PyStr := s.map Char.toLower

/-- Python str.strip: remove leading and trailing whitespace. -/
def pyStrip (s : PyStr) : PyStr :=
  ((s.dropWhile Char.isWhitespace).reverse.dropWhile Char.isWhitespace).reverse

/-- Python str.rstrip: remove trailing whitespace. -/
def pyRstrip (s : PyStr) : PyStr :=
  (s.reverse.dropWhile Char.isWhitespace).reverse

/-- Python's substring test needle in hay, as a Bool. -/
def pyIn (needle hay : PyStr) : Bool := decide (needle <:+: hay)

end Py

open Py

/-! ## cache.py: class Cache

A cache maps string keys to (data, timestamp, ttl) triples
(Cache._memory_cache).  A stored Python value is modelled as
an element of Option α where Lean's none stands for Python's None;
get returns such a value, with absence reported as None exactly as in
the source.  time.time() is passed in explicitly as an integer now.
The disk mirror (_save_to_disk / _remove_from_disk) only duplicates the
in-memory dict and is not modelled; the filename scheme it uses is
modelled separately below. -/

namespace Cache

/-- One entry of Cache._memory_cache: key maps to (data, timestamp, ttl). -/
abbrev Entry (α : Type) := PyStr × Option α × Int × Int

/-- The in-memory dictionary self._memory_cache. -/
structure CacheState (α : Type) where
  entries : List (Entry α)
deriving DecidableEq

/-- Python dict lookup d[k] / k in d. -/
def dictGet {β : Type} : List (PyStr × β) → PyStr → Option β
  | [], _ => none
  | (k', v) :: rest, k => if k' = k then some v else dictGet rest k

/-- Python dict assignment d[k] = v: overwrite in place, else append. -/
def dictSet {β : Type} : List (PyStr × β) → PyStr → β → List (PyStr × β)
  | [], k, v => [(k, v)]
  | (k', v') :: rest, k, v =>
    if k' = k then (k, v) :: rest else (k', v') :: dictSet rest k v

/-- Python del d[k] (the source only deletes keys that are present). -/
def dictDel {β : Type} (es : List (PyStr × β)) (k : PyStr) : List (PyStr × β) :=
  es.filter (fun e => e.1 ≠ k)

variable {α : Type}

/-- Cache.get: return the stored value, treating an entry whose age
exceeds its ttl as absent and evicting it as a side effect. -/
def get (st : CacheState α) (now : Int) (key : PyStr) :
    Option α × CacheState α :=
  match dictGet st.entries key with
  | none => (none, st)
  | some (data, timestamp, ttl) =>
    if now - timestamp > ttl then (none, ⟨dictDel st.entries key⟩)
    else (data, st)

/-- Cache.set: store (data, now, ttl) under key. -/
def set (st : CacheState α) (now : Int) (key : PyStr) (data : Option α)
    (ttl : Int) : CacheState α :=
  ⟨dictSet st.entries key (data, now, ttl)⟩

/-- Cache.has_key: self.get(key) is not None. -/
def hasKey (st : CacheState α) (now : Int) (key : PyStr) : Bool :=
  (get st now key).1.isSome

/-- Cache.cleanup_expired: collect the keys of all entries whose age
exceeds their ttl, delete them one by one, return how many keys were
collected. -/
def cleanupExpired (st : CacheState α) (now : Int) : Nat × CacheState α :=
  let expiredKeys :=
    (st.entries.filter (fun e => decide (now - e.2.2.1 > e.2.2.2))).map (·.1)
  (expiredKeys.length, ⟨expiredKeys.foldl (fun es k => dictDel es k) st.entries⟩)

/-- Cache.get_or_set: read through; on a miss invoke the producer,
store and return its result.  The third component counts how many times
the producer (factory_func) was invoked. -/
def getOrSet (st : CacheState α) (now : Int) (key : PyStr)
    (producer : Option α) (ttl : Int) : Option α × CacheState α × Nat :=
  let r := get st now key
  match r.1 with
  | some v => (some v, r.2, 0)
  | none => (producer, set r.2 now key producer ttl, 1)

/-- Cache._get_cache_filename: replace the unsafe characters slash,
backslash and colon by underscores and append the .cache extension. -/
def getCacheFilename (key : PyStr) : PyStr :=
  pyReplace
    (pyReplace (pyReplace key ("/".toList) ("_".toList))
      ("\\".toList) ("_".toList))
    (":".toList) ("_".toList)
  ++ ".cache".toList

/-- Cache._get_key_from_filename: drop every occurrence of .cache and
turn every underscore back into a slash. -/
def getKeyFromFilename (fn : PyStr) : PyStr :=
  pyReplace (pyReplace fn (".cache".toList) ([])) ("_".toList) ("/".toList)

end Cache

/-! ## download_manager.py: DownloadThread and DownloadManager

The manager's mutable state is the dict of active downloads (only its
keys, the destination paths, matter to the claims), the FIFO queue of
deferred (item_data, download_dir) pairs, and the concurrency limit.
Qt signal emissions become explicit event lists. -/

namespace DM

/-- The fields of an item_data dict that download_manager.py reads.
Missing dict keys are modelled by none. -/
structure Item where
  title : Option PyStr
  publishedfileid : Option PyStr
  file_url : Option PyStr
  filename : Option PyStr
deriving DecidableEq

/-- Signals emitted by DownloadManager. -/
inductive MEvent where
  | downloadStarted (path : PyStr)
  | downloadFinishedEvt (path : PyStr)
  | downloadErrorEvt (path : PyStr) (msg : PyStr)
  | allDownloadsFinished
deriving DecidableEq

/-- Mutable state of a DownloadManager: the destination paths of
self.active_downloads (in insertion order), self.download_queue and
self.max_concurrent_downloads. -/
structure MState where
  active : List PyStr
  queue : List (Item × PyStr)
  maxConcurrent : Nat
deriving DecidableEq

/-- DownloadManager._get_download_url, fallback branch: synthesize a
URL from the published file id when that id is present and truthy. -/
def urlFromPfid (item : Item) : Option PyStr :=
  match item.publishedfileid with
  | some pid =>
    if pid ≠ [] then
      some ("https://steamworkshopdownloader.io/download/".toList ++ pid)
    else none
  | none => none

/-- DownloadManager._get_download_url: prefer a truthy file_url field,
else fall back on the published file id. -/
def getDownloadUrl (item : Item) : Option PyStr :=
  match item.file_url with
  | some u => if u ≠ [] then some u else urlFromPfid item
  | none => urlFromPfid item

/-- Characters kept by the sanitizing filter in _generate_filename:
alphanumeric, space, dash, underscore.  (Python's isalnum is
Unicode-aware; the embedding uses Lean's isAlphanum, which agrees on
the ASCII data the claims are about.) -/
def keepChar (c : Char) : Bool :=
  c.isAlphanum || c = ' ' || c = '-' || c = '_'

/-- Suffix of the list starting at its last dot (Python
filename[filename.rfind('.'):]); only called when a dot is present. -/
def suffixFromLastDot : PyStr → PyStr
  | [] => []
  | c :: rest =>
    if '.' ∈ rest then suffixFromLastDot rest
    else if c = '.' then c :: rest
    else suffixFromLastDot rest

/-- The file extension chosen by _generate_filename: taken from the
filename field when that is truthy and contains a dot, else .zip. -/
def itemExtension (item : Item) : PyStr :=
  let fn := item.filename.getD []
  if fn ≠ [] ∧ '.' ∈ fn then suffixFromLastDot fn else ".zip".toList

/-- DownloadManager._generate_filename: filter the title down to the
kept characters, strip trailing whitespace, turn spaces into
underscores, cap at 50 characters, then append the id and extension. -/
def generateFilename (item : Item) : PyStr :=
  let title := item.title.getD ("workshop_item".toList)
  let safeTitle := pyRstrip (title.filter keepChar)
  let safeTitle := (safeTitle.map (fun c => if c = ' ' then '_' else c)).take 50
  let fileId := item.publishedfileid.getD ("unknown".toList)
  safeTitle ++ "_".toList ++ fileId ++ itemExtension item

/-- os.path.join as used with a directory and a generated filename. -/
def joinPath (dir fname : PyStr) : PyStr := dir ++ "/".toList ++ fname

/-- The destination path start_download computes for an item and a
download directory. -/
def resolvePath (item : Item) (dir : PyStr) : PyStr :=
  joinPath dir (generateFilename item)

/-- DownloadManager.start_download.  Returns the Bool result, the new
manager state and the emitted signals.  _start_download_thread always
succeeds in the model (thread construction cannot fail here). -/
def startDownload (st : MState) (item : Item) (dir : PyStr) :
    Bool × MState × List MEvent :=
  match getDownloadUrl item with
  | none =>
    (false, st,
      [MEvent.downloadErrorEvt [] ("Не удалось получить ссылку для загрузки".toList)])
  | some _ =>
    let path := resolvePath item dir
    if path ∈ st.active then
      (false, st, [MEvent.downloadErrorEvt path ("Файл уже загружается".toList)])
    else if st.maxConcurrent ≤ st.active.length then
      (true, { st with queue := st.queue ++ [(item, dir)] }, [])
    else
      (true, { st with active := st.active ++ [path] },
        [MEvent.downloadStarted path])

/-- DownloadManager._start_next_download: when the queue is non-empty
and a slot is free, pop the queue head and hand it back to
start_download. -/
def startNextDownload (st : MState) : MState × List MEvent :=
  match st.queue with
  | [] => (st, [])
  | (item, dir) :: rest =>
    if st.active.length < st.maxConcurrent then
      let r := startDownload { st with queue := rest } item dir
      (r.2.1, r.2.2)
    else (st, [])

/-- DownloadManager._on_download_finished: drop the path from the
active set, emit the finished signal, start the next queued download,
and emit all_downloads_finished when nothing remains. -/
def onDownloadFinished (st : MState) (path : PyStr) : MState × List MEvent :=
  let st1 : MState := { st with active := st.active.filter (fun p => p ≠ path) }
  let next := startNextDownload st1
  let evs := MEvent.downloadFinishedEvt path :: next.2
  if next.1.active = [] ∧ next.1.queue = [] then
    (next.1, evs ++ [MEvent.allDownloadsFinished])
  else (next.1, evs)

/-- DownloadManager._on_download_error: same shape as the finished
handler but with an error signal and no all_downloads_finished check. -/
def onDownloadError (st : MState) (path msg : PyStr) : MState × List MEvent :=
  let st1 : MState := { st with active := st.active.filter (fun p => p ≠ path) }
  let next := startNextDownload st1
  (next.1, MEvent.downloadErrorEvt path msg :: next.2)

/-- DownloadManager.cancel_download: when the path is active, set the
thread's is_cancelled flag and return True.  The manager's own state is
not touched by this method. -/
def cancelDownload (st : MState) (path : PyStr) : Bool × MState :=
  if path ∈ st.active then (true, st) else (false, st)

/-- DownloadManager.start_download folded over a list of requests. -/
def startAll (st : MState) : List (Item × PyStr) → MState
  | [] => st
  | (item, dir) :: rest => startAll (startDownload st item dir).2.1 rest

/-! ### DownloadThread.run

The transfer loop is modelled over the list of chunks the response
yields.  cancelAt gives the chunk boundary from which on the thread
observes is_cancelled as set (none: never cancelled).  Speed signals
depend on wall-clock sampling and are not modelled; the percentage is
computed with integer division where Python rounds a float, which the
claims never inspect. -/

/-- Signals emitted by a DownloadThread. -/
inductive TEvent where
  | progress (downloaded total percentage : Nat)
  | finishedEvt (path : PyStr)
  | errorEvt (msg : PyStr)
deriving DecidableEq

/-- Whether is_cancelled reads true at chunk boundary i. -/
def cancelledAt (cancelAt : Option Nat) (i : Nat) : Bool :=
  match cancelAt with
  | none => false
  | some j => j ≤ i

/-- The chunk loop of DownloadThread.run: at each boundary first poll
the cancellation flag (removing the partial file and returning silently
when it is set), else write the chunk and emit progress, skipping empty
keep-alive chunks.  Returns the bytes of the destination file (none
when the file was removed) and the emitted signals. -/
def threadGo (cancelAt : Option Nat) (totalSize : Nat) :
    List (List Nat) → Nat → Nat → List Nat → Option (List Nat) × List TEvent
  | [], _, _, written => (some written, [])
  | chunk :: rest, i, downloaded, written =>
    if cancelledAt cancelAt i then (none, [])
    else if chunk ≠ [] then
      let downloaded2 := downloaded + chunk.length
      let percentage := if 0 < totalSize then downloaded2 * 100 / totalSize else 0
      let r := threadGo cancelAt totalSize rest (i + 1) downloaded2 (written ++ chunk)
      (r.1, TEvent.progress downloaded2 totalSize percentage :: r.2)
    else threadGo cancelAt totalSize rest (i + 1) downloaded written

/-- DownloadThread.run on the success path: run the chunk loop, then
emit download_finished only if the flag is still unset after it. -/
def threadRun (path : PyStr) (chunks : List (List Nat)) (totalSize : Nat)
    (cancelAt : Option Nat) : Option (List Nat) × List TEvent :=
  let r := threadGo cancelAt totalSize chunks 0 0 []
  match r.1 with
  | none => (none, r.2)
  | some written =>
    if cancelledAt cancelAt chunks.length then (some written, r.2)
    else (some written, r.2 ++ [TEvent.finishedEvt path])

end DM

/-! ## steam_api.py: SteamAPI.search_games over the static catalog -/

namespace Steam

/-- One record of SteamAPI.popular_games. -/
structure Game where
  appid : Nat
  name : PyStr
deriving DecidableEq

/-- The hard-coded SteamAPI.popular_games table. -/
def popularGames : List Game :=
  [⟨730, "Counter-Strike: Global Offensive".toList⟩,
   ⟨570, "Dota 2".toList⟩,
   ⟨440, "Team Fortress 2".toList⟩,
   ⟨4000, "Garry's Mod".toList⟩,
   ⟨252490, "Rust".toList⟩,
   ⟨304930, "Unturned".toList⟩,
   ⟨431960, "Wallpaper Engine".toList⟩,
   ⟨294100, "RimWorld".toList⟩,
   ⟨255710, "Cities: Skylines".toList⟩,
   ⟨108600, "Project Zomboid".toList⟩,
   ⟨211820, "Starbound".toList⟩,
   ⟨105600, "Terraria".toList⟩,
   ⟨72850, "The Elder Scrolls V: Skyrim".toList⟩,
   ⟨489830, "The Elder Scrolls V: Skyrim Special Edition".toList⟩,
   ⟨1085660, "Destiny 2".toList⟩,
   ⟨271590, "Grand Theft Auto V".toList⟩,
   ⟨346110, "ARK: Survival Evolved".toList⟩,
   ⟨322330, "Don't Starve Together".toList⟩,
   ⟨230410, "Warframe".toList⟩,
   ⟨582010, "Monster Hunter: World".toList⟩,
   ⟨1172470, "Apex Legends".toList⟩,
   ⟨359550, "Tom Clancy's Rainbow Six Siege".toList⟩,
   ⟨292030, "The Witcher 3: Wild Hunt".toList⟩,
   ⟨1174180, "Red Dead Redemption 2".toList⟩,
   ⟨413150, "Stardew Valley".toList⟩,
   ⟨367520, "Hollow Knight".toList⟩,
   ⟨381210, "Dead by Daylight".toList⟩,
   ⟨236430, "A Hat in Time".toList⟩,
   ⟨418370, "Subnautica".toList⟩,
   ⟨774281, "Subnautica: Below Zero".toList⟩,
   ⟨892970, "Valheim".toList⟩,
   ⟨945360, "Among Us".toList⟩,
   ⟨1203220, "NARAKA: BLADEPOINT".toList⟩,
   ⟨1172620, "Sea of Thieves".toList⟩,
   ⟨1091500, "Cyberpunk 2077".toList⟩,
   ⟨1245620, "ELDEN RING".toList⟩,
   ⟨1086940, "Baldur's Gate 3".toList⟩,
   ⟨1517290, "Battlefield 2042".toList⟩,
   ⟨1599340, "Call of Duty: Modern Warfare II".toList⟩,
   ⟨1938090, "Call of Duty: Modern Warfare III".toList⟩,
   ⟨1966720, "Hogwarts Legacy".toList⟩,
   ⟨1817070, "Marvel's Spider-Man Remastered".toList⟩,
   ⟨1888930, "Marvel's Spider-Man: Miles Morales".toList⟩,
   ⟨1623730, "Palworld".toList⟩,
   ⟨1868140, "DAVE THE DIVER".toList⟩,
   ⟨1449850, "Yu-Gi-Oh! Master Duel".toList⟩,
   ⟨1593500, "God of War".toList⟩,
   ⟨1817190, "Marvel's Guardians of the Galaxy".toList⟩,
   ⟨1237970, "Titanfall 2".toList⟩,
   ⟨1174370, "Phasmophobia".toList⟩]

/-- The loop body of SteamAPI.search_games: walk the catalog, append
every case-insensitive substring match, and break as soon as the
result list reaches the limit (note the append happens before the
length test, exactly as in the source). -/
def searchLoop (qLower : PyStr) (limit : Nat) :
    List Game → List Game → List Game
  | [], results => results
  | g :: rest, results =>
    if pyIn qLower (pyLower g.name) then
      let results2 := results ++ [g]
      if limit ≤ results2.length then results2
      else searchLoop qLower limit rest results2
    else searchLoop qLower limit rest results

/-- SteamAPI.search_games. -/
def searchGames (query : PyStr) (limit : Nat) : List Game :=
  searchLoop (pyLower query) limit popularGames []

end Steam

/-! ## worker.py: SearchThread.run -/

namespace Worker

open Cache Steam

/-- Signals emitted by a SearchThread. -/
inductive SEvent where
  | results (gs : List Game)
  | errorEvt (msg : PyStr)
deriving DecidableEq

/-- Result of one SearchThread.run on an uncancelled thread: the
emitted signals, the cache afterwards, and how many times
SteamAPI.search_games was invoked. -/
structure SearchRunResult where
  events : List SEvent
  cache : CacheState (List Game)
  fetchCalls : Nat
deriving DecidableEq

/-- Python truthiness of the value Cache.get returned: None and the
empty list are falsy. -/
def truthyGames : Option (List Game) → Bool
  | none => false
  | some gs => gs ≠ []

/-- SearchThread.run (is_cancelled stays false): queries whose stripped
form is shorter than 2 characters short-circuit to an empty result;
otherwise consult the cache under search_games_ plus the lower-cased
query, and on a missing or falsy cached value fetch via
SteamAPI.search_games with limit 20, cache the result for 900 seconds
and emit it. -/
def searchRun (st : CacheState (List Game)) (now : Int) (query : PyStr) :
    SearchRunResult :=
  if (pyStrip query).length < 2 then ⟨[SEvent.results []], st, 0⟩
  else
    let cacheKey := "search_games_".toList ++ pyLower query
    let r := Cache.get st now cacheKey
    if truthyGames r.1 then ⟨[SEvent.results (r.1.getD [])], r.2, 0⟩
    else
      let results := searchGames query 20
      ⟨[SEvent.results results], Cache.set r.2 now cacheKey (some results) 900, 1⟩

end Worker

/-! ## Concrete inputs used by the scenario claims -/

namespace DM

/-- The characters the filename scenario lists as disallowed. -/
def forbiddenChars : List Char := ['<', '>', ':', '/', '\\', '|', '?', '*']

/-- Modelled from the claim wording, not from the source: a sanitizer
that substitutes an underscore for each disallowed character instead of
removing it, and otherwise proceeds exactly like _generate_filename
(strip trailing whitespace, collapse spaces to underscores, cap at 50,
suffix id and extension).  It exists only to compare the claim's
wording against what the code computes. -/
def underscoreSanitizedFilename (item : Item) : PyStr :=
  let title := item.title.getD ("workshop_item".toList)
  let replaced := title.map (fun c => if c ∈ forbiddenChars then '_' else c)
  let base := ((pyRstrip replaced).map (fun c => if c = ' ' then '_' else c)).take 50
  base ++ "_".toList ++ item.publishedfileid.getD ("unknown".toList)
    ++ itemExtension item

/-- The item of the concrete filename scenario: display title
Mod: <Test>/Name and id 42, no direct url and no filename field. -/
def scenarioItem : Item :=
  ⟨some ("Mod: <Test>/Name".toList), some ("42".toList), none, none⟩

/-- Concrete items used by the download-coordination witnesses. -/
def itemA : Item :=
  ⟨some ("A".toList), some ("1".toList), some ("http://a".toList), none⟩

def itemB : Item :=
  ⟨some ("B".toList), some ("2".toList), some ("http://b".toList), none⟩

def itemC : Item :=
  ⟨some ("C".toList), some ("3".toList), some ("http://c".toList), none⟩

end DM

/-! ## Theorems about the cache -/

namespace Cache

lemma dictGet_dictSet_self {β : Type} (es : List (PyStr × β)) (k : PyStr) (v : β) :
    dictGet (dictSet es k v) k = some v := by
  induction es with
  | nil => simp [dictSet, dictGet]
  | cons e rest ih =>
    obtain ⟨k', v'⟩ := e
    by_cases h : k' = k
    · simp [dictSet, h, dictGet]
    · simp [dictSet, h, dictGet, ih]

lemma dictGet_mem {β : Type} {es : List (PyStr × β)} {k : PyStr} {v : β}
    (h : dictGet es k = some v) : (k, v) ∈ es := by
  induction es with
  | nil => simp [dictGet] at h
  | cons e rest ih =>
    obtain ⟨k', v'⟩ := e
    by_cases hk : k' = k
    · subst hk
      simp [dictGet] at h
      simp [h]
    · simp [dictGet, hk] at h
      exact List.mem_cons_of_mem _ (ih h)

lemma dictDel_ne_of_mem {β : Type} {es : List (PyStr × β)} {k : PyStr} {v : β}
    (h : dictGet es k = some v) : dictDel es k ≠ es := by
  intro heq
  have hall := List.filter_eq_self.mp heq (k, v) (dictGet_mem h)
  simp at hall

lemma foldl_dictDel_eq_filter {β : Type} (ks : List PyStr) (es : List (PyStr × β)) :
    ks.foldl (fun es k => dictDel es k) es
      = es.filter (fun e => decide (e.1 ∉ ks)) := by
  induction ks generalizing es with
  | nil => simp
  | cons k ks ih =>
    simp only [List.foldl_cons]
    rw [ih]
    unfold dictDel
    rw [List.filter_filter]
    apply List.filter_congr
    intro e _
    by_cases h1 : e.1 = k <;> by_cases h2 : e.1 ∈ ks <;> simp [h1, h2]

lemma mem_filterKeys_iff {α : Type} {es : List (Entry α)}
    (hnd : (es.map (·.1)).Nodup)
    (p : Entry α → Bool) {e : Entry α} (he : e ∈ es) :
    e.1 ∈ (es.filter p).map (·.1) ↔ p e = true := by
  constructor
  · intro h
    obtain ⟨e', he', hkey⟩ := List.mem_map.mp h
    have he'' := List.mem_of_mem_filter he'
    have heq := List.inj_on_of_nodup_map hnd he'' he hkey
    subst heq
    exact List.of_mem_filter he'
  · intro hp
    exact List.mem_map.mpr ⟨e, List.mem_filter.mpr ⟨he, hp⟩, rfl⟩

/-- C5: immediately after set(k, v, t) the value read back for k is v;
at any time more than t seconds later the read returns absent, and in
general an entry is treated as live (its stored value is returned and
the entry is retained) exactly when now - created_at <= ttl. -/
theorem cache_set_get_ttl {α : Type} (st : CacheState α) (k : PyStr)
    (v : Option α) (t now d : Int) (ht : 0 ≤ t) :
    (get (set st now k v t) now k).1 = v
    ∧ (d > t → (get (set st now k v t) (now + d) k).1 = none)
    ∧ (∀ (st' : CacheState α) (k' : PyStr) (v' : Option α) (ts ttl now' : Int),
        dictGet st'.entries k' = some (v', ts, ttl) →
        (((get st' now' k').1 = v' ∧ (get st' now' k').2 = st')
          ↔ now' - ts ≤ ttl)) := by
  refine ⟨?_, ?_, ?_⟩
  · unfold get set
    simp only [dictGet_dictSet_self]
    split
    case isTrue h => exact absurd h (by omega)
    case isFalse h => rfl
  · intro hd
    unfold get set
    simp only [dictGet_dictSet_self]
    split
    case isTrue h => rfl
    case isFalse h => exact absurd hd (by omega)
  · intro st' k' v' ts ttl now' h
    unfold get
    rw [h]
    by_cases hc : now' - ts > ttl
    · simp only [if_pos hc]
      constructor
      · rintro ⟨-, habs⟩
        exact absurd (congrArg CacheState.entries habs) (dictDel_ne_of_mem h)
      · intro hle; omega
    · simp only [if_neg hc]
      constructor
      · intro _; omega
      · intro _; exact ⟨by trivial, by trivial⟩
  
/-- C6: cleanup_expired removes exactly the entries whose age exceeds
their TTL at call time, leaves all others untouched and in place, and
returns a count equal to the number of entries removed. -/
theorem cache_cleanup_exact {α : Type} (st : CacheState α) (now : Int)
    (hnd : (st.entries.map (·.1)).Nodup) :
    (cleanupExpired st now).2.entries
      = st.entries.filter (fun e => decide (¬ now - e.2.2.1 > e.2.2.2))
    ∧ (cleanupExpired st now).1
      = (st.entries.filter (fun e => decide (now - e.2.2.1 > e.2.2.2))).length := by
  constructor
  · show ((st.entries.filter _).map (·.1)).foldl _ st.entries = _
    rw [foldl_dictDel_eq_filter]
    apply List.filter_congr
    intro e he
    have h := mem_filterKeys_iff hnd
      (fun e => decide (now - e.2.2.1 > e.2.2.2)) he
    rw [decide_eq_decide]
    exact not_congr (h.trans decide_eq_true_iff)
  · show ((st.entries.filter _).map (·.1)).length = _
    simp [List.length_map]

/-- C9: a call of get_or_set(k, p) on a cache hit returns the cached
value without invoking the producer; on a miss it invokes the producer
exactly once, stores its result under k with the current timestamp and
the requested ttl, and returns that result. -/
theorem cache_getOrSet_spec {α : Type} (st : CacheState α) (now : Int)
    (k : PyStr) (p : Option α) (ttl : Int) :
    (∀ v : α, (get st now k).1 = some v →
      getOrSet st now k p ttl = (some v, (get st now k).2, 0))
    ∧ ((get st now k).1 = none →
      getOrSet st now k p ttl = (p, set (get st now k).2 now k p ttl, 1)
      ∧ dictGet (getOrSet st now k p ttl).2.1.entries k = some (p, now, ttl)) := by
  refine ⟨fun v h => ?_, fun h => ⟨?_, ?_⟩⟩
  · simp only [getOrSet, h]
  · simp only [getOrSet, h]
  · simp only [getOrSet, h, set]
    exact dictGet_dictSet_self _ _ _

/-- Witness for cache_getOrSet_spec: a concrete hit never invokes the
producer and a concrete miss invokes it exactly once and stores its
result. -/
theorem cache_getOrSet_spec_witness :
    getOrSet (⟨[("a".toList, (some 3, 0, 10))]⟩ : CacheState Int) 0
        ("a".toList) (some 9) 5
      = (some 3, ⟨[("a".toList, (some 3, 0, 10))]⟩, 0)
    ∧ getOrSet (⟨[]⟩ : CacheState Int) 0 ("b".toList) (some 9) 5
      = (some 9, ⟨[("b".toList, (some 9, 0, 5))]⟩, 1) := by
  refine ⟨?_, ?_⟩
  · exact ((cache_getOrSet_spec (⟨[("a".toList, (some 3, 0, 10))]⟩ : CacheState Int)
      0 ("a".toList) (some 9) 5).1 3 (by decide)).trans (by decide)
  · exact (((cache_getOrSet_spec (⟨[]⟩ : CacheState Int)
      0 ("b".toList) (some 9) 5).2 (by decide)).1).trans (by decide)

/-- C10: a stored value of None is indistinguishable from absence:
right after set(k, None, t) a get returns None, has_key is false, and
get_or_set invokes the producer again even though the entry is
physically present. -/
theorem cache_none_indistinguishable {α : Type} (st : CacheState α)
    (now : Int) (k : PyStr) (t : Int) (p : Option α) (ttl : Int) :
    (get (set st now k none t) now k).1 = none
    ∧ hasKey (set st now k none t) now k = false
    ∧ (getOrSet (set st now k none t) now k p ttl).2.2 = 1 := by
  have hget : (get (set st now k none t) now k).1 = none := by
    unfold get set
    simp only [dictGet_dictSet_self]
    split <;> rfl
  refine ⟨hget, ?_, ?_⟩
  · unfold hasKey
    rw [hget]
    rfl
  · simp only [getOrSet, hget]

/-- C1 fails on the code: the key-to-filename map collides on the
distinct keys a_b and a/b, and the claimed round trip
_get_key_from_filename(_get_cache_filename(k)) = k fails at k = a_b. -/
theorem cache_filename_not_injective :
    getCacheFilename ("a_b".toList) = getCacheFilename ("a/b".toList)
    ∧ ("a_b".toList : PyStr) ≠ "a/b".toList
    ∧ getKeyFromFilename (getCacheFilename ("a_b".toList)) ≠ "a_b".toList := by
  decide

end Cache

namespace Cache

/-- Witness for cache_set_get_ttl: a fresh entry with ttl 5 reads back
immediately and is absent 6 seconds later. -/
theorem cache_set_get_ttl_witness :
    (get (set (⟨[]⟩ : CacheState Int) 0 ("k".toList) (some 5) 5) 0
        ("k".toList)).1 = some 5
    ∧ (get (set (⟨[]⟩ : CacheState Int) 0 ("k".toList) (some 5) 5) (0 + 6)
        ("k".toList)).1 = none := by
  have h := cache_set_get_ttl (⟨[]⟩ : CacheState Int) ("k".toList)
    (some 5) 5 0 6 (by decide)
  exact ⟨h.1, h.2.1 (by decide)⟩

/-- Witness for cache_cleanup_exact on a two-entry cache with one
expired entry. -/
theorem cache_cleanup_exact_witness :
    (cleanupExpired
        (⟨[("a".toList, (some 1, 0, 10)), ("b".toList, (some 2, 0, 3))]⟩
          : CacheState Int) 5).2.entries
      = [("a".toList, (some 1, 0, 10))]
    ∧ (cleanupExpired
        (⟨[("a".toList, (some 1, 0, 10)), ("b".toList, (some 2, 0, 3))]⟩
          : CacheState Int) 5).1 = 1 := by
  have h := cache_cleanup_exact
    (⟨[("a".toList, (some 1, 0, 10)), ("b".toList, (some 2, 0, 3))]⟩
      : CacheState Int) 5 (by decide)
  exact ⟨h.1.trans (by decide), h.2.trans (by decide)⟩

end Cache

/-! ## Theorems about the download coordinator -/

namespace DM

/-- C7 fails as worded: on title Mod: <Test>/Name and id 42 the code
strips the disallowed characters instead of putting underscores in
their place, so it generates Mod_TestName_42.zip and not the
underscore-substituted Mod___Test__Name_42.zip. -/
theorem generateFilename_strips_not_underscores :
    generateFilename scenarioItem = "Mod_TestName_42.zip".toList
    ∧ underscoreSanitizedFilename scenarioItem
      = "Mod___Test__Name_42.zip".toList
    ∧ generateFilename scenarioItem ≠ underscoreSanitizedFilename scenarioItem := by
  decide

/-- C7 amended: filename generation on title Mod: <Test>/Name and id
42 yields Mod_TestName_42.zip, which contains none of the disallowed
characters (they are removed; only spaces become underscores) and is
suffixed with _42 and the default .zip extension. -/
theorem generateFilename_scenario :
    generateFilename scenarioItem = "Mod_TestName_42.zip".toList
    ∧ (∀ c ∈ generateFilename scenarioItem, c ∉ forbiddenChars)
    ∧ "_42.zip".toList <:+ generateFilename scenarioItem := by
  decide

/-- C3 fails as stated: with max_concurrent = 1, a download for item A
occupies the only slot, a first request for item B is queued, and a
second call for arguments resolving to the same destination path as
the queued (hence non-terminal) B request is accepted (returns true)
and enqueued a second time instead of being rejected. -/
theorem startDownload_duplicate_queued_accepted :
    (startDownload (⟨[], [], 1⟩ : MState) itemA ("d".toList)).1 = true
    ∧ (startDownload
        ((startDownload (⟨[], [], 1⟩ : MState) itemA ("d".toList)).2.1)
        itemB ("d".toList)).1 = true
    ∧ ((startDownload
        ((startDownload (⟨[], [], 1⟩ : MState) itemA ("d".toList)).2.1)
        itemB ("d".toList)).2.1).queue = [(itemB, "d".toList)]
    ∧ (startDownload
        ((startDownload
          ((startDownload (⟨[], [], 1⟩ : MState) itemA ("d".toList)).2.1)
          itemB ("d".toList)).2.1)
        itemB ("d".toList)).1 = true
    ∧ ((startDownload
        ((startDownload
          ((startDownload (⟨[], [], 1⟩ : MState) itemA ("d".toList)).2.1)
          itemB ("d".toList)).2.1)
        itemB ("d".toList)).2.1).queue
      = [(itemB, "d".toList), (itemB, "d".toList)] := by
  decide

/-- C3 amended: a call of start_download whose arguments resolve to a
destination path that currently has an active transfer is rejected: it
emits one error signal for that path, returns false and leaves the
manager state unchanged. -/
theorem startDownload_rejects_active_duplicate (st : MState) (item : Item)
    (dir u : PyStr) (hurl : getDownloadUrl item = some u)
    (hactive : resolvePath item dir ∈ st.active) :
    startDownload st item dir
      = (false, st,
          [MEvent.downloadErrorEvt (resolvePath item dir)
            ("Файл уже загружается".toList)]) := by
  simp [startDownload, hurl, hactive]

/-- Witness for startDownload_rejects_active_duplicate: a concrete
duplicate of an active transfer is rejected without a state change. -/
theorem startDownload_rejects_active_duplicate_witness :
    startDownload (⟨[resolvePath itemA ("d".toList)], [], 3⟩ : MState)
        itemA ("d".toList)
      = (false, ⟨[resolvePath itemA ("d".toList)], [], 3⟩,
          [MEvent.downloadErrorEvt (resolvePath itemA ("d".toList))
            ("Файл уже загружается".toList)]) :=
  startDownload_rejects_active_duplicate
    (⟨[resolvePath itemA ("d".toList)], [], 3⟩ : MState) itemA ("d".toList)
    ("http://a".toList) (by decide) (by decide)

/-- C2: what the code actually does on cancellation: cancel_download
returns true but leaves the coordinator state untouched, so the path
stays in the active set and no queued transfer is started; the thread,
observing the flag at the second chunk boundary, removes the partial
destination file and emits no further progress, success or failure
signal. -/
theorem cancel_keeps_path_active :
    cancelDownload (⟨["d/f.zip".toList], [], 3⟩ : MState) ("d/f.zip".toList)
      = (true, ⟨["d/f.zip".toList], [], 3⟩)
    ∧ ("d/f.zip".toList
        ∈ (cancelDownload (⟨["d/f.zip".toList], [], 3⟩ : MState)
            ("d/f.zip".toList)).2.active)
    ∧ threadRun ("d/f.zip".toList) [[1, 2], [3, 4], [5]] 5 (some 1)
      = (none, [TEvent.progress 2 5 40]) := by
  decide

end DM

namespace DM

lemma startAll_spec (reqs : List (Item × PyStr)) :
    ∀ st : MState,
    (∀ r ∈ reqs, (getDownloadUrl r.1).isSome) →
    (reqs.map (fun r => resolvePath r.1 r.2)).Nodup →
    (∀ r ∈ reqs, resolvePath r.1 r.2 ∉ st.active) →
    (st.active.length < st.maxConcurrent → st.queue = []) →
    startAll st reqs
      = ⟨st.active
          ++ (reqs.map (fun r => resolvePath r.1 r.2)).take
              (st.maxConcurrent - st.active.length),
         st.queue ++ reqs.drop (st.maxConcurrent - st.active.length),
         st.maxConcurrent⟩ := by
  induction reqs with
  | nil => intro st _ _ _ _; simp [startAll]
  | cons r rest ih =>
    intro st hurl hnd hdisj hinv
    obtain ⟨item, dir⟩ := r
    obtain ⟨u, hu⟩ := Option.isSome_iff_exists.mp
      (hurl (item, dir) (List.mem_cons_self _ _))
    have hpa : resolvePath item dir ∉ st.active :=
      hdisj (item, dir) (List.mem_cons_self _ _)
    rw [List.map_cons, List.nodup_cons] at hnd
    by_cases hcap : st.maxConcurrent ≤ st.active.length
    · have hz : st.maxConcurrent - st.active.length = 0 := by omega
      have hstep : startDownload st item dir
          = (true, { st with queue := st.queue ++ [(item, dir)] }, []) := by
        simp [startDownload, hu, hpa, hcap]
      have hrec := ih { st with queue := st.queue ++ [(item, dir)] }
        (fun r hr => hurl r (List.mem_cons_of_mem _ hr))
        hnd.2
        (fun r hr => hdisj r (List.mem_cons_of_mem _ hr))
        (fun hlt => absurd hlt (by simp; omega))
      show startAll (startDownload st item dir).2.1 rest = _
      rw [hstep]
      exact hrec.trans (by simp [hz, List.append_assoc])
    · have hcap' : ¬ st.maxConcurrent ≤ st.active.length := hcap
      have hlt : st.active.length < st.maxConcurrent := by omega
      have hq : st.queue = [] := hinv hlt
      have hstep : startDownload st item dir
          = (true, { st with active := st.active ++ [resolvePath item dir] },
             [MEvent.downloadStarted (resolvePath item dir)]) := by
        simp [startDownload, hu, hpa, hcap']
      have hp0 : resolvePath item dir
          ∉ rest.map (fun r => resolvePath r.1 r.2) := hnd.1
      have hdisj' : ∀ r ∈ rest,
          resolvePath r.1 r.2 ∉ st.active ++ [resolvePath item dir] := by
        intro r hr hmem
        rcases List.mem_append.mp hmem with h1 | h2
        · exact hdisj r (List.mem_cons_of_mem _ hr) h1
        · have h2' : resolvePath r.1 r.2 = resolvePath item dir := by
            simpa using h2
          exact hp0 (h2' ▸ List.mem_map_of_mem _ hr)
      have hrec := ih { st with active := st.active ++ [resolvePath item dir] }
        (fun r hr => hurl r (List.mem_cons_of_mem _ hr))
        hnd.2 hdisj' (fun _ => hq)
      show startAll (startDownload st item dir).2.1 rest = _
      rw [hstep]
      have harith : st.maxConcurrent - st.active.length
          = (st.maxConcurrent - (st.active.length + 1)) + 1 := by omega
      exact hrec.trans (by
        simp [List.length_append, harith, List.take_succ_cons,
          List.drop_succ_cons, hq, List.append_assoc])

lemma finish_starts_queue_head (st : MState) (path : PyStr) (item : Item)
    (dir u : PyStr) (rest : List (Item × PyStr))
    (hq : st.queue = (item, dir) :: rest)
    (hmem : path ∈ st.active)
    (hcap : st.active.length ≤ st.maxConcurrent)
    (hu : getDownloadUrl item = some u)
    (hnew : resolvePath item dir ∉ st.active) :
    onDownloadFinished st path
      = (⟨st.active.filter (fun p => p ≠ path) ++ [resolvePath item dir],
          rest, st.maxConcurrent⟩,
         [MEvent.downloadFinishedEvt path,
          MEvent.downloadStarted (resolvePath item dir)]) := by
  obtain ⟨l1, l2, hsplit⟩ := List.append_of_mem hmem
  have hflt : (st.active.filter (fun p => p ≠ path)).length
      < st.active.length := by
    have h1 := List.length_filter_le (fun p => decide (p ≠ path)) l1
    have h2 := List.length_filter_le (fun p => decide (p ≠ path)) l2
    have heq : (st.active.filter (fun p => p ≠ path)).length
        = (l1.filter (fun p => p ≠ path)).length
          + (l2.filter (fun p => p ≠ path)).length := by
      rw [hsplit]; simp [List.filter_append]
    have hlen : st.active.length = l1.length + l2.length + 1 := by
      rw [hsplit]
      simp only [List.length_append, List.length_cons]
      omega
    omega
  have hlt : (st.active.filter (fun p => p ≠ path)).length
      < st.maxConcurrent := by omega
  have hncap : ¬ st.maxConcurrent
      ≤ (st.active.filter (fun p => p ≠ path)).length := by omega
  simp only [ne_eq, decide_not] at hlt hncap
  simp [onDownloadFinished, startNextDownload, startDownload,
    hq, hu, hnew, hncap, hlt]

lemma error_starts_queue_head (st : MState) (path msg : PyStr) (item : Item)
    (dir u : PyStr) (rest : List (Item × PyStr))
    (hq : st.queue = (item, dir) :: rest)
    (hmem : path ∈ st.active)
    (hcap : st.active.length ≤ st.maxConcurrent)
    (hu : getDownloadUrl item = some u)
    (hnew : resolvePath item dir ∉ st.active) :
    onDownloadError st path msg
      = (⟨st.active.filter (fun p => p ≠ path) ++ [resolvePath item dir],
          rest, st.maxConcurrent⟩,
         [MEvent.downloadErrorEvt path msg,
          MEvent.downloadStarted (resolvePath item dir)]) := by
  obtain ⟨l1, l2, hsplit⟩ := List.append_of_mem hmem
  have hflt : (st.active.filter (fun p => p ≠ path)).length
      < st.active.length := by
    have h1 := List.length_filter_le (fun p => decide (p ≠ path)) l1
    have h2 := List.length_filter_le (fun p => decide (p ≠ path)) l2
    have heq : (st.active.filter (fun p => p ≠ path)).length
        = (l1.filter (fun p => p ≠ path)).length
          + (l2.filter (fun p => p ≠ path)).length := by
      rw [hsplit]; simp [List.filter_append]
    have hlen : st.active.length = l1.length + l2.length + 1 := by
      rw [hsplit]
      simp only [List.length_append, List.length_cons]
      omega
    omega
  have hlt : (st.active.filter (fun p => p ≠ path)).length
      < st.maxConcurrent := by omega
  have hncap : ¬ st.maxConcurrent
      ≤ (st.active.filter (fun p => p ≠ path)).length := by omega
  simp only [ne_eq, decide_not] at hlt hncap
  simp [onDownloadError, startNextDownload, startDownload,
    hq, hu, hnew, hncap, hlt]

/-- C4: starting any number of downloads with resolvable URLs and
pairwise-distinct resolved destination paths against a limit M smaller
than their number leaves exactly the first M of them active (in order)
and the remaining ones queued in FIFO order; and whenever an active
transfer completes, or fails, while the queue is non-empty, exactly the
queue head is started: it moves from the queue to the active set and a
started signal is emitted for its path. -/
theorem bounded_concurrency_fifo :
    (∀ (reqs : List (Item × PyStr)) (M : Nat),
      (∀ r ∈ reqs, (getDownloadUrl r.1).isSome) →
      (reqs.map (fun r => resolvePath r.1 r.2)).Nodup →
      M < reqs.length →
      startAll (⟨[], [], M⟩ : MState) reqs
        = ⟨(reqs.map (fun r => resolvePath r.1 r.2)).take M, reqs.drop M, M⟩
      ∧ (startAll (⟨[], [], M⟩ : MState) reqs).active.length = M
      ∧ (startAll (⟨[], [], M⟩ : MState) reqs).queue.length = reqs.length - M)
    ∧ (∀ (st : MState) (path : PyStr) (item : Item) (dir : PyStr)
        (rest : List (Item × PyStr)),
      st.queue = (item, dir) :: rest →
      path ∈ st.active →
      st.active.length ≤ st.maxConcurrent →
      (getDownloadUrl item).isSome →
      resolvePath item dir ∉ st.active →
      onDownloadFinished st path
        = (⟨st.active.filter (fun p => p ≠ path) ++ [resolvePath item dir],
            rest, st.maxConcurrent⟩,
           [MEvent.downloadFinishedEvt path,
            MEvent.downloadStarted (resolvePath item dir)]))
    ∧ (∀ (st : MState) (path msg : PyStr) (item : Item) (dir : PyStr)
        (rest : List (Item × PyStr)),
      st.queue = (item, dir) :: rest →
      path ∈ st.active →
      st.active.length ≤ st.maxConcurrent →
      (getDownloadUrl item).isSome →
      resolvePath item dir ∉ st.active →
      onDownloadError st path msg
        = (⟨st.active.filter (fun p => p ≠ path) ++ [resolvePath item dir],
            rest, st.maxConcurrent⟩,
           [MEvent.downloadErrorEvt path msg,
            MEvent.downloadStarted (resolvePath item dir)])) := by
  refine ⟨?_, ?_, ?_⟩
  · intro reqs M hurl hnd hN
    have h := startAll_spec reqs (⟨[], [], M⟩ : MState) hurl hnd
      (by intro r hr; simp) (fun _ => rfl)
    simp only [List.nil_append, List.length_nil, Nat.sub_zero] at h
    refine ⟨h, ?_, ?_⟩
    · rw [h]
      simp only [List.length_take, List.length_map]
      omega
    · rw [h]
      simp only [List.length_drop]
  · intro st path item dir rest hq hmem hcap hurl hnew
    obtain ⟨u, hu⟩ := Option.isSome_iff_exists.mp hurl
    exact finish_starts_queue_head st path item dir u rest hq hmem hcap hu hnew
  · intro st path msg item dir rest hq hmem hcap hurl hnew
    obtain ⟨u, hu⟩ := Option.isSome_iff_exists.mp hurl
    exact error_starts_queue_head st path msg item dir u rest hq hmem hcap hu hnew

/-- Witness for bounded_concurrency_fifo: three concrete requests
against limit 1 give one active transfer and two FIFO-queued entries,
and both finishing and failing the active transfer start exactly the
queue head. -/
theorem bounded_concurrency_fifo_witness :
    startAll (⟨[], [], 1⟩ : MState)
        [(itemA, "d".toList), (itemB, "d".toList), (itemC, "d".toList)]
      = ⟨["d/A_1.zip".toList], [(itemB, "d".toList), (itemC, "d".toList)], 1⟩
    ∧ onDownloadFinished
        (⟨["d/A_1.zip".toList], [(itemB, "d".toList)], 1⟩ : MState)
        ("d/A_1.zip".toList)
      = (⟨["d/B_2.zip".toList], [], 1⟩,
         [MEvent.downloadFinishedEvt ("d/A_1.zip".toList),
          MEvent.downloadStarted ("d/B_2.zip".toList)])
    ∧ onDownloadError
        (⟨["d/A_1.zip".toList], [(itemB, "d".toList)], 1⟩ : MState)
        ("d/A_1.zip".toList) ("err".toList)
      = (⟨["d/B_2.zip".toList], [], 1⟩,
         [MEvent.downloadErrorEvt ("d/A_1.zip".toList) ("err".toList),
          MEvent.downloadStarted ("d/B_2.zip".toList)]) := by
  refine ⟨?_, ?_, ?_⟩
  · exact ((bounded_concurrency_fifo.1
      [(itemA, "d".toList), (itemB, "d".toList), (itemC, "d".toList)] 1
      (by decide) (by decide) (by decide)).1).trans (by decide)
  · exact (bounded_concurrency_fifo.2.1
      (⟨["d/A_1.zip".toList], [(itemB, "d".toList)], 1⟩ : MState)
      ("d/A_1.zip".toList) itemB ("d".toList) []
      (by decide) (by decide) (by decide) (by decide) (by decide)).trans
      (by decide)
  · exact (bounded_concurrency_fifo.2.2
      (⟨["d/A_1.zip".toList], [(itemB, "d".toList)], 1⟩ : MState)
      ("d/A_1.zip".toList) ("err".toList) itemB ("d".toList) []
      (by decide) (by decide) (by decide) (by decide) (by decide)).trans
      (by decide)

end DM

/-! ## Theorems about the search path -/

namespace Worker

open Steam

lemma pyStrip_length_le (s : PyStr) : (pyStrip s).length ≤ s.length := by
  unfold pyStrip
  calc ((s.dropWhile Char.isWhitespace).reverse.dropWhile
          Char.isWhitespace).reverse.length
      ≤ (s.dropWhile Char.isWhitespace).reverse.length := by
        rw [List.length_reverse]
        exact (List.dropWhile_sublist _).length_le
    _ ≤ s.length := by
        rw [List.length_reverse]
        exact (List.dropWhile_sublist _).length_le

lemma searchLoop_eq (qLower : PyStr) (limit : Nat) (gs : List Game) :
    ∀ acc : List Game, acc.length < limit →
    searchLoop qLower limit gs acc
      = acc ++ (gs.filter (fun g => pyIn qLower (pyLower g.name))).take
          (limit - acc.length) := by
  induction gs with
  | nil => intro acc _; simp [searchLoop]
  | cons g rest ih =>
    intro acc h
    by_cases hm : pyIn qLower (pyLower g.name) = true
    · rw [@List.filter_cons_of_pos Game (fun g => pyIn qLower (pyLower g.name)) g rest hm]
      by_cases hl : limit ≤ (acc ++ [g]).length
      · have h1 : limit - acc.length = 1 := by
          simp only [List.length_append, List.length_cons,
            List.length_nil] at hl
          omega
        simp only [searchLoop, hm, if_true, if_pos hl, h1]
        simp
      · have hlt : (acc ++ [g]).length < limit := by omega
        have h2 : limit - acc.length = (limit - (acc ++ [g]).length) + 1 := by
          simp only [List.length_append, List.length_cons,
            List.length_nil] at hlt ⊢
          omega
        simp only [searchLoop, hm, if_true, if_neg hl]
        rw [ih (acc ++ [g]) hlt, h2, List.take_succ_cons]
        simp [List.append_assoc]
    · have hm' : pyIn qLower (pyLower g.name) = false := by
        simpa using hm
      rw [@List.filter_cons_of_neg Game (fun g => pyIn qLower (pyLower g.name)) g rest (by simp [hm'])]
      simp only [searchLoop, hm']
      simpa using ih acc h

/-- C8: any search query shorter than 2 characters makes the search
loader emit a single empty result list without invoking the fetch,
leaving the cache untouched; and for any query and any positive limit
(the loader passes 20), SteamAPI.search_games returns exactly the
static-catalog records whose name contains the query as a
case-insensitive substring, in catalog order, truncated to the limit. -/
theorem search_shortcircuit_and_matches :
    (∀ (st : Cache.CacheState (List Game)) (now : Int) (q : PyStr),
      q.length < 2 →
      searchRun st now q = ⟨[SEvent.results []], st, 0⟩)
    ∧ (∀ (q : PyStr) (limit : Nat), 1 ≤ limit →
      searchGames q limit
        = (popularGames.filter
            (fun g => pyIn (pyLower q) (pyLower g.name))).take limit) := by
  constructor
  · intro st now q hq
    have hs : (pyStrip q).length < 2 :=
      Nat.lt_of_le_of_lt (pyStrip_length_le q) hq
    unfold searchRun
    rw [if_pos hs]
  · intro q limit hl
    unfold searchGames
    rw [searchLoop_eq (pyLower q) limit popularGames [] (by simpa using hl)]
    simp

/-- Witness for search_shortcircuit_and_matches: the one-character
query D short-circuits on an empty cache, and the query Do returns
exactly the two catalog records whose name contains do
case-insensitively, Dota 2 and Don't Starve Together. -/
theorem search_shortcircuit_and_matches_witness :
    searchRun (⟨[]⟩ : Cache.CacheState (List Game)) 0 ("D".toList)
      = ⟨[SEvent.results []], (⟨[]⟩ : Cache.CacheState (List Game)), 0⟩
    ∧ searchGames ("Do".toList) 20
      = [⟨570, "Dota 2".toList⟩, ⟨322330, "Don't Starve Together".toList⟩] := by
  constructor
  · exact search_shortcircuit_and_matches.1
      (⟨[]⟩ : Cache.CacheState (List Game)) 0 ("D".toList) (by decide)
  · exact (search_shortcircuit_and_matches.2 ("Do".toList) 20
      (by decide)).trans (by decide)

end Worker
